import Mathlib

/-!
Verification of the Home Assistant recorder purge logic and the LIFX level
conversions.

The purge algorithm is embedded from the specification of
`purge_old_data(store, keep_days)` (the recorder purge module itself is not
part of this source tree; only its test suite
`tests/components/recorder/test_purge.py` is).  The concrete scenarios are
embedded from that test suite.  The LIFX conversions are embedded from
`homeassistant/components/light/lifx.py`.
-/

namespace HomeAssistant

/-- A row of the `states` table (models.States): entity_id, domain, state,
serialized attributes, timestamps, and a nullable weak reference to an
event row.  `state_id` is the primary key generated by the store. -/
structure StateRecord where
  state_id : Nat
  entity_id : String
  domain : String
  state : String
  attributes : String
  last_changed : Int
  last_updated : Int
  created : Int
  event_id : Option Nat
  deriving DecidableEq, Repr

/-- A row of the `events` table (models.Events): event_type, serialized
event_data, origin, timestamps.  `event_id` is the unique key generated by
the store on insert. -/
structure EventRecord where
  event_id : Nat
  event_type : String
  event_data : String
  origin : String
  created : Int
  time_fired : Int
  deriving DecidableEq, Repr

/-- The historical store: the states collection and the events collection. -/
@[ext]
structure Store where
  states : List StateRecord
  events : List EventRecord
  deriving DecidableEq, Repr

def secondsPerDay : Int := 86400

/-- Modelled from the spec: `cutoff = now - keep_days days` (step 1 of the
purge algorithm). -/
def cutoff (now keep_days : Int) : Int := now - keep_days * secondsPerDay

/-- The better of a candidate row and an optional rival: the rival wins only
with a strictly larger last_updated. -/
def betterOf (u : StateRecord) : Option StateRecord → StateRecord
  | none => u
  | some t => if t.last_updated > u.last_updated then t else u

/-- Modelled from the spec: for a distinct entity_id, the single StateRecord
with maximum last_updated (step 2 of the purge algorithm).  Ties on
last_updated resolve to the earliest inserted row. -/
def latestFor (e : String) : List StateRecord → Option StateRecord
  | [] => none
  | s :: rest =>
    if s.entity_id = e then some (betterOf s (latestFor e rest))
    else latestFor e rest

/-- A state row is protected when it is the latest row of its entity. -/
def isLatest (states : List StateRecord) (s : StateRecord) : Bool :=
  decide (latestFor s.entity_id states = some s)

/-- Modelled from the spec: the event_id values referenced by the protected
(latest-per-entity) state rows (step 2 of the purge algorithm). -/
def protectedEventIds (states : List StateRecord) : List Nat :=
  ((states.map (fun s => s.entity_id)).dedup).filterMap
    (fun e => (latestFor e states).bind (fun s => s.event_id))

/-- Retention predicate for a state row: kept unless `last_updated < cutoff`
and the row is not protected (step 3 of the purge algorithm). -/
def keepState (states : List StateRecord) (c : Int) (s : StateRecord) : Bool :=
  decide (c ≤ s.last_updated) || isLatest states s

/-- Retention predicate for an event row: kept unless `time_fired < cutoff`
and its event_id is not referenced by a protected state (step 4 of the purge
algorithm). -/
def keepEvent (states : List StateRecord) (c : Int) (ev : EventRecord) : Bool :=
  decide (c ≤ ev.time_fired) || decide (ev.event_id ∈ protectedEventIds states)

/-- Modelled from the spec: `purge_old_data(store, keep_days)` computes the
cutoff, determines the protected set from the latest state per entity, then
deletes the unprotected state rows older than the cutoff and the unprotected
event rows older than the cutoff. -/
def purge_old_data (store : Store) (now keep_days : Int) : Store :=
  let c := cutoff now keep_days
  { states := store.states.filter (keepState store.states c)
  , events := store.events.filter (keepEvent store.states c) }

/-- Modelled from the spec: the recorder purge service accepts
`keep_days` as its only recognized parameter; a call without it fails
caller-side validation and the purger never runs. -/
def callPurgeService (store : Store) (now : Int) (keep_days : Option Int) :
    Store :=
  match keep_days with
  | none => store
  | some kd => purge_old_data store now kd

/-! Concrete scenario from tests/components/recorder/test_purge.py. -/

/-- `json.dumps` of the attribute mapping used by the test fixtures. -/
def attrsJson : String := "\x7b\"test_attr\": 5, \"test_attr_10\": \"nice\"\x7d"

def nowT : Int := 10 * secondsPerDay

def fiveDaysAgo : Int := nowT - 5 * secondsPerDay

/-- A states row of the `_add_test_states` loop for entity test.recorder2. -/
def recorder2State (i : Nat) (st : String) (ts : Int) (eid : Nat) :
    StateRecord :=
  ⟨i, "test.recorder2", "sensor", st, attrsJson, ts, ts, ts, some eid⟩

/-- The old single-row entity of `_add_test_states`, referencing the
protected event id (2000 when `_add_test_events` did not run). -/
def rarelyUpdatedState (protectedId : Nat) : StateRecord :=
  ⟨6, "test.rarely_updated_entity", "sensor", "iamprotected", attrsJson,
    fiveDaysAgo, fiveDaysAgo, fiveDaysAgo, some protectedId⟩

/-- States added by `_add_test_states`: 5 rows for test.recorder2 (loop ids
0..4, the first 3 old with state purgeme, the last 2 current with state
dontpurgeme, event_id 1000+i) plus one old row for
test.rarely_updated_entity. -/
def testStates (protectedId : Nat) : List StateRecord :=
  [ recorder2State 1 "purgeme" fiveDaysAgo 1000
  , recorder2State 2 "purgeme" fiveDaysAgo 1001
  , recorder2State 3 "purgeme" fiveDaysAgo 1002
  , recorder2State 4 "dontpurgeme" nowT 1003
  , recorder2State 5 "dontpurgeme" nowT 1004
  , rarelyUpdatedState protectedId ]

/-- The old EVENT_TEST_FOR_PROTECTED event of `_add_test_events`; its
store-generated event id is modelled as 6. -/
def protectedTestEvent : EventRecord :=
  ⟨6, "EVENT_TEST_FOR_PROTECTED", attrsJson, "LOCAL",
    fiveDaysAgo, fiveDaysAgo⟩

/-- Events added by `_add_test_events`: 5 loop rows (the first 2 old of type
EVENT_TEST_PURGE, the last 3 current of type EVENT_TEST) plus the old
EVENT_TEST_FOR_PROTECTED row; event ids are store generated, modelled as
1..6. -/
def testEvents : List EventRecord :=
  [ ⟨1, "EVENT_TEST_PURGE", attrsJson, "LOCAL", fiveDaysAgo, fiveDaysAgo⟩
  , ⟨2, "EVENT_TEST_PURGE", attrsJson, "LOCAL", fiveDaysAgo, fiveDaysAgo⟩
  , ⟨3, "EVENT_TEST", attrsJson, "LOCAL", nowT, nowT⟩
  , ⟨4, "EVENT_TEST", attrsJson, "LOCAL", nowT, nowT⟩
  , ⟨5, "EVENT_TEST", attrsJson, "LOCAL", nowT, nowT⟩
  , protectedTestEvent ]

/-- Store of `test_purge_old_states`: only `_add_test_states` ran, so the
protected event id defaults to 2000 and the events table is empty. -/
def statesOnlyStore : Store := ⟨testStates 2000, []⟩

/-- Store of `test_purge_old_events`: only `_add_test_events` ran, so no
state row references the EVENT_TEST_FOR_PROTECTED event. -/
def eventsOnlyStore : Store := ⟨[], testEvents⟩

/-- Store of `test_purge_method`: both fixtures ran, so the
test.rarely_updated_entity row references event id 6. -/
def fullStore : Store := ⟨testStates 6, testEvents⟩

/-- A state row timestamped exactly at the cutoff of a keep_days=4 purge
run at `nowT`, for the boundary behaviour. -/
def boundaryState : StateRecord :=
  ⟨7, "test.boundary", "sensor", "atcutoff", attrsJson,
    cutoff nowT 4, cutoff nowT 4, cutoff nowT 4, none⟩

/-- An event row timestamped exactly at the cutoff of a keep_days=4 purge
run at `nowT`. -/
def boundaryEvent : EventRecord :=
  ⟨7, "EVENT_BOUNDARY", attrsJson, "LOCAL", cutoff nowT 4, cutoff nowT 4⟩

/-- A store holding one state row and one event row, both exactly at the
cutoff. -/
def boundaryStore : Store := ⟨[boundaryState], [boundaryEvent]⟩

/-! LIFX level conversions, from homeassistant/components/light/lifx.py. -/

/-- Scale an 8 bit level into 16 bits. -/
def convert_8_to_16 (value : Nat) : Nat := (value <<< 8) ||| value

/-- Scale a 16 bit level into 8 bits. -/
def convert_16_to_8 (value : Nat) : Nat := value >>> 8

/-! Lemmas about `latestFor`, the latest-per-entity selection. -/


/-- The selected latest row is a member of the list and belongs to the
requested entity. -/
theorem latestFor_mem {e : String} {l : List StateRecord} {s : StateRecord}
    (h : latestFor e l = some s) : s ∈ l ∧ s.entity_id = e := by
  induction l with
  | nil => simp [latestFor] at h
  | cons u rest ih =>
    by_cases he : u.entity_id = e
    · cases hr : latestFor e rest with
      | none =>
        simp only [latestFor, if_pos he, hr, betterOf, Option.some.injEq] at h
        subst h
        exact ⟨List.mem_cons_self _ _, he⟩
      | some t =>
        simp only [latestFor, if_pos he, hr, betterOf, Option.some.injEq] at h
        by_cases hc : t.last_updated > u.last_updated
        · rw [if_pos hc] at h
          subst h
          exact ⟨List.mem_cons_of_mem u (ih hr).1, (ih hr).2⟩
        · rw [if_neg hc] at h
          subst h
          exact ⟨List.mem_cons_self _ _, he⟩
    · simp only [latestFor, if_neg he] at h
      exact ⟨List.mem_cons_of_mem u (ih h).1, (ih h).2⟩

/-- `latestFor` returns none exactly when no row of the list belongs to the
entity. -/
theorem latestFor_eq_none_iff {e : String} {l : List StateRecord} :
    latestFor e l = none ↔ ∀ t ∈ l, t.entity_id ≠ e := by
  induction l with
  | nil => simp [latestFor]
  | cons u rest ih =>
    by_cases he : u.entity_id = e
    · simp only [latestFor, if_pos he]
      constructor
      · intro h
        exact Option.noConfusion h
      · intro h
        exact absurd he (h u (List.mem_cons_self _ _))
    · simp only [latestFor, if_neg he]
      rw [ih]
      constructor
      · intro h t ht
        rcases List.mem_cons.mp ht with rfl | ht
        · exact he
        · exact h t ht
      · intro h t ht
        exact h t (List.mem_cons_of_mem u ht)

/-- The selected latest row has the maximum last_updated among all rows of
its entity. -/
theorem latestFor_max {e : String} {l : List StateRecord} {s : StateRecord}
    (h : latestFor e l = some s) :
    ∀ t ∈ l, t.entity_id = e → t.last_updated ≤ s.last_updated := by
  induction l generalizing s with
  | nil => simp
  | cons u rest ih =>
    intro t ht hte
    by_cases he : u.entity_id = e
    · cases hr : latestFor e rest with
      | none =>
        simp only [latestFor, if_pos he, hr, betterOf, Option.some.injEq] at h
        subst h
        rcases List.mem_cons.mp ht with rfl | ht
        · exact le_refl _
        · exact absurd hte (latestFor_eq_none_iff.mp hr t ht)
      | some t' =>
        simp only [latestFor, if_pos he, hr, betterOf, Option.some.injEq] at h
        by_cases hc : t'.last_updated > u.last_updated
        · rw [if_pos hc] at h
          subst h
          rcases List.mem_cons.mp ht with rfl | ht
          · exact le_of_lt hc
          · exact ih hr t ht hte
        · rw [if_neg hc] at h
          subst h
          rcases List.mem_cons.mp ht with rfl | ht
          · exact le_refl _
          · exact le_trans (ih hr t ht hte) (not_lt.mp hc)
    · simp only [latestFor, if_neg he] at h
      rcases List.mem_cons.mp ht with rfl | ht
      · exact absurd hte he
      · exact ih h t ht hte

/-- Rows strictly before the selected latest row never tie with it, so
filtering the list with any predicate that keeps the selected row keeps it
selected. -/
theorem latestFor_filter {e : String} {l : List StateRecord}
    {s : StateRecord} (p : StateRecord → Bool)
    (h : latestFor e l = some s) (hp : p s = true) :
    latestFor e (l.filter p) = some s := by
  induction l with
  | nil => simp [latestFor] at h
  | cons u rest ih =>
    by_cases he : u.entity_id = e
    · cases hr : latestFor e rest with
      | none =>
        simp only [latestFor, if_pos he, hr, betterOf, Option.some.injEq] at h
        subst h
        have hrf : latestFor e (rest.filter p) = none :=
          latestFor_eq_none_iff.mpr fun t ht =>
            latestFor_eq_none_iff.mp hr t (List.mem_of_mem_filter ht)
        rw [List.filter_cons_of_pos hp]
        simp only [latestFor, if_pos he, hrf, betterOf]
      | some t =>
        simp only [latestFor, if_pos he, hr, betterOf, Option.some.injEq] at h
        by_cases hc : t.last_updated > u.last_updated
        · rw [if_pos hc] at h
          subst h
          have hrf := ih hr
          by_cases hu : p u = true
          · rw [List.filter_cons_of_pos hu]
            simp only [latestFor, if_pos he, hrf, betterOf, if_pos hc]
          · rw [List.filter_cons_of_neg (by simpa using hu)]
            exact hrf
        · rw [if_neg hc] at h
          subst h
          rw [List.filter_cons_of_pos hp]
          cases hrf : latestFor e (rest.filter p) with
          | none => simp only [latestFor, if_pos he, hrf, betterOf]
          | some t' =>
            have ht' := latestFor_mem hrf
            have hle : t'.last_updated ≤ t.last_updated :=
              latestFor_max hr t' (List.mem_of_mem_filter ht'.1) ht'.2
            have hnc : ¬ t'.last_updated > u.last_updated :=
              not_lt.mpr (le_trans hle (not_lt.mp hc))
            simp only [latestFor, if_pos he, hrf, betterOf, if_neg hnc]
    · simp only [latestFor, if_neg he] at h
      by_cases hu : p u = true
      · rw [List.filter_cons_of_pos hu]
        simp only [latestFor, if_neg he]
        exact ih h
      · rw [List.filter_cons_of_neg (by simpa using hu)]
        exact ih h

/-- A row selected as the latest of its entity satisfies the retention
predicate at any cutoff. -/
theorem keepState_of_latest (states : List StateRecord) (c : Int)
    {s : StateRecord} (h : latestFor s.entity_id states = some s) :
    keepState states c s = true := by
  simp [keepState, isLatest, h]

/-- Protected event ids survive the purge of the states list: the references
of the latest-per-entity rows are unchanged by a filter that keeps those
rows. -/
theorem protectedEventIds_filter (states : List StateRecord) (c : Int)
    {eid : Nat} (h : eid ∈ protectedEventIds states) :
    eid ∈ protectedEventIds (states.filter (keepState states c)) := by
  rw [protectedEventIds, List.mem_filterMap] at h
  obtain ⟨e, he, hbind⟩ := h
  cases hl : latestFor e states with
  | none => rw [hl] at hbind; simp at hbind
  | some s =>
    rw [hl] at hbind
    simp only [Option.some_bind] at hbind
    have hsent : s.entity_id = e := (latestFor_mem hl).2
    have hkeep : keepState states c s = true :=
      keepState_of_latest states c (by rw [hsent]; exact hl)
    have hsf : s ∈ states.filter (keepState states c) :=
      List.mem_filter.mpr ⟨(latestFor_mem hl).1, hkeep⟩
    rw [protectedEventIds, List.mem_filterMap]
    refine ⟨e, ?_, ?_⟩
    · rw [List.mem_dedup]
      exact List.mem_map.mpr ⟨s, hsf, hsent⟩
    · rw [latestFor_filter _ hl hkeep]
      simpa using hbind

/-! The claims. -/

/-- C1: for every entity_id present in the store, after any run of
purge_old_data a state row of that entity carrying the maximum last_updated
timestamp still exists, regardless of how old it is: the protected state is
never deleted. -/
theorem purge_preserves_latest_state (store : Store) (now keep_days : Int)
    (e : String) (h : ∃ s0 ∈ store.states, s0.entity_id = e) :
    ∃ s ∈ (purge_old_data store now keep_days).states, s.entity_id = e ∧
      ∀ t ∈ store.states, t.entity_id = e →
        t.last_updated ≤ s.last_updated := by
  obtain ⟨s0, hs0, he0⟩ := h
  cases hl : latestFor e store.states with
  | none => exact absurd he0 (latestFor_eq_none_iff.mp hl s0 hs0)
  | some s =>
    have hmem := latestFor_mem hl
    refine ⟨s, ?_, hmem.2, latestFor_max hl⟩
    show s ∈ store.states.filter (keepState store.states (cutoff now keep_days))
    exact List.mem_filter.mpr ⟨hmem.1,
      keepState_of_latest _ _ (by rw [hmem.2]; exact hl)⟩

/-- Witness for C1: the single old row of test.rarely_updated_entity
survives the keep_days=4 purge of the states fixture. -/
theorem purge_preserves_latest_state_witness :
    ∃ s ∈ (purge_old_data statesOnlyStore nowT 4).states,
      s.entity_id = "test.rarely_updated_entity" ∧
      ∀ t ∈ statesOnlyStore.states,
        t.entity_id = "test.rarely_updated_entity" →
        t.last_updated ≤ s.last_updated :=
  purge_preserves_latest_state statesOnlyStore nowT 4
    "test.rarely_updated_entity" ⟨rarelyUpdatedState 2000, by decide, rfl⟩

/-- C2: every event referenced via event_id by a protected (latest per
entity) state row still exists after any run of purge_old_data, even when
its time_fired is older than the cutoff. -/
theorem purge_preserves_protected_event (store : Store) (now keep_days : Int)
    (e : String) (s : StateRecord) (eid : Nat) (ev : EventRecord)
    (hs : latestFor e store.states = some s) (hid : s.event_id = some eid)
    (hev : ev ∈ store.events) (heid : ev.event_id = eid) :
    ev ∈ (purge_old_data store now keep_days).events := by
  have hmem : eid ∈ protectedEventIds store.states := by
    rw [protectedEventIds, List.mem_filterMap]
    refine ⟨e, ?_, ?_⟩
    · rw [List.mem_dedup]
      exact List.mem_map.mpr ⟨s, (latestFor_mem hs).1, (latestFor_mem hs).2⟩
    · rw [hs]
      simpa using hid
  show ev ∈ store.events.filter (keepEvent store.states (cutoff now keep_days))
  refine List.mem_filter.mpr ⟨hev, ?_⟩
  simp [keepEvent, heid, hmem]

/-- Witness for C2: the old EVENT_TEST_FOR_PROTECTED event, referenced by
the test.rarely_updated_entity row, survives the keep_days=4 purge of the
combined fixture store. -/
theorem purge_preserves_protected_event_witness :
    protectedTestEvent ∈ (purge_old_data fullStore nowT 4).events :=
  purge_preserves_protected_event fullStore nowT 4
    "test.rarely_updated_entity" (rarelyUpdatedState 6) 6 protectedTestEvent
    (by decide) rfl (by decide) rfl

/-- C3: deletion is complete: every state row strictly older than the
cutoff that is not the latest row of its entity (some other row of the same
entity is strictly newer) is gone after purge_old_data. -/
theorem purge_deletes_old_nonlatest (store : Store) (now keep_days : Int)
    (s : StateRecord) (hold : s.last_updated < cutoff now keep_days)
    (hnl : ∃ t ∈ store.states, t.entity_id = s.entity_id ∧
      s.last_updated < t.last_updated) :
    s ∉ (purge_old_data store now keep_days).states := by
  intro hmem
  have hmem' : s ∈ store.states.filter
      (keepState store.states (cutoff now keep_days)) := hmem
  have hkeep := (List.mem_filter.mp hmem').2
  rw [keepState, Bool.or_eq_true, decide_eq_true_eq] at hkeep
  rcases hkeep with hle | hlat
  · exact absurd hle (not_le.mpr hold)
  · rw [isLatest, decide_eq_true_eq] at hlat
    obtain ⟨t, ht, hte, hlt⟩ := hnl
    exact absurd (latestFor_max hlat t ht hte) (not_le.mpr hlt)

/-- Witness for C3: the first old purgeme row of test.recorder2 is deleted
by the keep_days=4 purge of the states fixture. -/
theorem purge_deletes_old_nonlatest_witness :
    recorder2State 1 "purgeme" fiveDaysAgo 1000 ∉
      (purge_old_data statesOnlyStore nowT 4).states :=
  purge_deletes_old_nonlatest statesOnlyStore nowT 4
    (recorder2State 1 "purgeme" fiveDaysAgo 1000) (by decide)
    ⟨recorder2State 4 "dontpurgeme" nowT 1003, by decide, rfl, by decide⟩

/-- C4 as stated fails: the states fixture holds only 2 dontpurgeme rows
(loop indexes 3 and 4), so the purge cannot leave 3 of them. -/
theorem purge_states_scenario_counterexample :
    ¬ ((purge_old_data statesOnlyStore nowT 4).states.filter
        (fun s => s.state = "dontpurgeme")).length = 3 := by decide

/-- C4 amended: the fixture has 3 purgeme rows and 2 dontpurgeme rows for
test.recorder2 plus the old test.rarely_updated_entity row; the keep_days=4
purge leaves exactly 3 rows, namely the 2 dontpurgeme rows and the
rarely-updated row, and deletes all purgeme rows. -/
theorem purge_states_scenario :
    (purge_old_data statesOnlyStore nowT 4).states.length = 3 ∧
    (purge_old_data statesOnlyStore nowT 4).states =
      [ recorder2State 4 "dontpurgeme" nowT 1003
      , recorder2State 5 "dontpurgeme" nowT 1004
      , rarelyUpdatedState 2000 ] ∧
    ((purge_old_data statesOnlyStore nowT 4).states.filter
      (fun s => s.state = "purgeme")).length = 0 := by decide

/-- C5: in the combined fixture store the keep_days=4 purge leaves exactly
4 events: the 3 EVENT_TEST events and the EVENT_TEST_FOR_PROTECTED event;
both EVENT_TEST_PURGE events are deleted. -/
theorem purge_events_scenario :
    (purge_old_data fullStore nowT 4).events.length = 4 ∧
    ((purge_old_data fullStore nowT 4).events.filter
      (fun ev => ev.event_type = "EVENT_TEST")).length = 3 ∧
    ((purge_old_data fullStore nowT 4).events.filter
      (fun ev => ev.event_type = "EVENT_TEST_FOR_PROTECTED")).length = 1 ∧
    ((purge_old_data fullStore nowT 4).events.filter
      (fun ev => ev.event_type = "EVENT_TEST_PURGE")).length = 0 := by decide

/-- C6: purge_old_data is idempotent: a second run with the same cutoff
deletes nothing further, the store is unchanged. -/
theorem purge_idempotent (store : Store) (now keep_days : Int) :
    purge_old_data (purge_old_data store now keep_days) now keep_days =
      purge_old_data store now keep_days := by
  apply Store.ext
  · show (store.states.filter (keepState store.states (cutoff now keep_days))).filter
        (keepState (store.states.filter (keepState store.states (cutoff now keep_days)))
          (cutoff now keep_days))
      = store.states.filter (keepState store.states (cutoff now keep_days))
    apply List.filter_eq_self.mpr
    intro s hs
    have hk := (List.mem_filter.mp hs).2
    rw [keepState, Bool.or_eq_true] at hk ⊢
    rcases hk with hle | hlat
    · exact Or.inl hle
    · right
      rw [isLatest, decide_eq_true_eq] at hlat ⊢
      exact latestFor_filter _ hlat (keepState_of_latest _ _ hlat)
  · show (store.events.filter (keepEvent store.states (cutoff now keep_days))).filter
        (keepEvent (store.states.filter (keepState store.states (cutoff now keep_days)))
          (cutoff now keep_days))
      = store.events.filter (keepEvent store.states (cutoff now keep_days))
    apply List.filter_eq_self.mpr
    intro ev hev
    have hk := (List.mem_filter.mp hev).2
    rw [keepEvent, Bool.or_eq_true, decide_eq_true_eq, decide_eq_true_eq]
      at hk ⊢
    rcases hk with hle | hmem
    · exact Or.inl hle
    · exact Or.inr (protectedEventIds_filter _ _ hmem)

/-- C7: rows timestamped exactly at the cutoff are retained: the deletion
predicate uses strict less-than, for states and for events alike. -/
theorem purge_retains_cutoff_rows (store : Store) (now keep_days : Int)
    (s : StateRecord) (ev : EventRecord)
    (hs : s ∈ store.states) (hlu : s.last_updated = cutoff now keep_days)
    (hev : ev ∈ store.events) (htf : ev.time_fired = cutoff now keep_days) :
    s ∈ (purge_old_data store now keep_days).states ∧
      ev ∈ (purge_old_data store now keep_days).events := by
  constructor
  · show s ∈ store.states.filter (keepState store.states (cutoff now keep_days))
    refine List.mem_filter.mpr ⟨hs, ?_⟩
    simp only [keepState, Bool.or_eq_true, decide_eq_true_eq]
    exact Or.inl (le_of_eq hlu.symm)
  · show ev ∈ store.events.filter (keepEvent store.states (cutoff now keep_days))
    refine List.mem_filter.mpr ⟨hev, ?_⟩
    simp only [keepEvent, Bool.or_eq_true, decide_eq_true_eq]
    exact Or.inl (le_of_eq htf.symm)

/-- Witness for C7: a state row and an event row timestamped exactly at the
cutoff of a keep_days=4 purge both survive it. -/
theorem purge_retains_cutoff_rows_witness :
    boundaryState ∈ (purge_old_data boundaryStore nowT 4).states ∧
      boundaryEvent ∈ (purge_old_data boundaryStore nowT 4).events :=
  purge_retains_cutoff_rows boundaryStore nowT 4 boundaryState boundaryEvent
    (by decide) rfl (by decide) rfl

/-- C8: a purge service call without the keep_days parameter fails
caller-side validation before the purger runs, so the counts of state rows
and event rows are unchanged. -/
theorem purge_service_missing_keep_days (store : Store) (now : Int) :
    (callPurgeService store now none).states.length = store.states.length ∧
    (callPurgeService store now none).events.length = store.events.length :=
  ⟨rfl, rfl⟩

/-- C9: event protection requires an actual referencing state row: with the
events fixture inserted alone, the old EVENT_TEST_FOR_PROTECTED event is
deleted together with both EVENT_TEST_PURGE events, leaving only the 3
recent EVENT_TEST events. -/
theorem purge_unreferenced_old_events :
    (purge_old_data eventsOnlyStore nowT 4).events.length = 3 ∧
    ((purge_old_data eventsOnlyStore nowT 4).events.filter
      (fun ev => ev.event_type = "EVENT_TEST")).length = 3 ∧
    protectedTestEvent ∉ (purge_old_data eventsOnlyStore nowT 4).events ∧
    ((purge_old_data eventsOnlyStore nowT 4).events.filter
      (fun ev => ev.event_type = "EVENT_TEST_PURGE")).length = 0 := by decide

set_option maxRecDepth 4096 in
/-- C10: the LIFX 8 bit to 16 bit level conversions round trip: scaling an
8 bit level up and back down returns the original level. -/
theorem convert_8_16_roundtrip :
    ∀ v : Nat, v ≤ 255 → convert_16_to_8 (convert_8_to_16 v) = v := by
  decide

/-- Witness for C10: the round trip at level 200. -/
theorem convert_8_16_roundtrip_witness :
    (200 : Nat) ≤ 255 ∧ convert_16_to_8 (convert_8_to_16 200) = 200 :=
  ⟨by decide, convert_8_16_roundtrip 200 (by decide)⟩

end HomeAssistant
